import Mathlib

/-!
Verification development for the trade-report settlement pipeline
(`process_trades.py` and the modular `src/` revision of the same program).

The embedding models:
* operation-label normalization (`_normalize_operation`),
* the as-of rate join (`pd.merge_asof`, direction backward) and the
  row recalculation fallback (`recalculate_additional_trades`),
* decimal settlement arithmetic (`calc_sum` / `calculate_rub_amounts`) with
  2-decimal-place quantization (`Decimal.quantize`); `process_trades.py`
  installs `ROUND_HALF_UP` on the shared decimal context at import, while the
  modular package never sets a rounding mode and therefore quantizes under
  Python's default `ROUND_HALF_EVEN` — both modes are modelled,
* position aggregation (`aggregate_summary` in `process_trades.py` and
  `calculate_summary` in `trade_summary_calculator.py`),
* closed-position summaries (`calculate_closed_positions`),
* short-coverage lot consumption (`process_negative_balance` in
  `negative_balance_handler.py`),
* the reconciliation predicate (`find_insufficient_tickers` in
  `SecuritiesMerger.py`).

Monetary values are exact decimals in the source (Python `Decimal`) and are
modelled as rationals; dates are modelled as integers; a pandas `NaN` / `None`
cell is modelled as `Option.none`.
-/

-- Batteries marks rational arithmetic irreducible, which blocks `decide` on
-- concrete monetary values; restore the default reducibility.
set_option allowUnsafeReducibility true
attribute [semireducible] Rat.mul Rat.add Rat.sub Rat.neg Rat.div Rat.inv Rat.floor

/-- Lowercases a character the way Python `str.lower` does on the alphabets the
operation lexicons use: ASCII `A`-`Z` and Cyrillic `А`-`Я` plus `Ё`. -/
def lowerChar (c : Char) : Char :=
  if 'A' ≤ c ∧ c ≤ 'Z' then Char.ofNat (c.toNat + 32)
  else if c = 'Ё' then 'ё'
  else if 'А' ≤ c ∧ c ≤ 'Я' then Char.ofNat (c.toNat + 32)
  else c

/-- Lowercase every character of a string (models `str.lower`). -/
def strLower (s : String) : String := ⟨s.data.map lowerChar⟩

/-- Characters removed by Python `str.strip` (the whitespace actually occurring
in the report labels). -/
def isSpaceChar (c : Char) : Bool :=
  c == ' ' || c == '\t' || c == '\n' || c == '\r'

/-- Models Python `str.strip`. -/
def strStrip (s : String) : String :=
  ⟨((s.data.dropWhile isSpaceChar).reverse.dropWhile isSpaceChar).reverse⟩

/-- Does the character list start with the given pattern list? -/
def startsWithL : List Char → List Char → Bool
  | _, [] => true
  | [], _ :: _ => false
  | a :: as, b :: bs => a == b && startsWithL as bs

/-- Does the first character list contain the second as a contiguous
subsequence?  Models Python's `in` test on strings. -/
def containsL : List Char → List Char → Bool
  | [], pat => pat.isEmpty
  | a :: t, pat => startsWithL (a :: t) pat || containsL t pat

/-- Substring containment on strings: `containsSub s pat` models Python
`pat in s`. -/
def containsSub (s pat : String) : Bool := containsL s.data pat.data

/-- Models `_normalize_operation` (identical in `process_trades.py` and
`trade_data_processor.py`): strip, lowercase, test the buy lexicon
(`покуп`, `купл`, `buy`), then the sell lexicon (`продаж`, `sell`);
unmatched labels pass through stripped. -/
def normalizeOperation (raw : String) : String :=
  let op := strStrip raw
  let opLower := strLower op
  if containsSub opLower "покуп" || containsSub opLower "купл" ||
      containsSub opLower "buy" then "Покупка"
  else if containsSub opLower "продаж" || containsSub opLower "sell" then
    "Продажа"
  else op

/-- Round-half-up of a rational to an integer: ties go away from zero, the
rounding mode Python `decimal` calls `ROUND_HALF_UP`. -/
def roundHalfUp (x : ℚ) : ℤ :=
  if 0 ≤ x then (x + 1 / 2).floor else -(-x + 1 / 2).floor

/-- Models `Decimal.quantize(Decimal('0.01'))` under `ROUND_HALF_UP`, the
rounding mode `process_trades.py` installs on the decimal context at import:
round to two decimal places, ties away from zero.  The modular package never
sets a rounding mode, so its quantizations run under the default
`ROUND_HALF_EVEN` instead (see `round2E`); a quantization of a value that is
already exact at two decimal places is mode-independent. -/
def round2 (x : ℚ) : ℚ := (roundHalfUp (x * 100) : ℚ) / 100

/-- Round-to-nearest with ties to the even neighbour, the rounding mode
Python's default decimal context uses (`ROUND_HALF_EVEN`). -/
def roundHalfEven (x : ℚ) : ℤ :=
  if x - (x.floor : ℚ) < 1 / 2 then x.floor
  else if 1 / 2 < x - (x.floor : ℚ) then x.floor + 1
  else if x.floor % 2 = 0 then x.floor else x.floor + 1

/-- Models `Decimal.quantize(Decimal('0.01'))` under Python's default
`ROUND_HALF_EVEN`, the mode in effect in the modular package
(`src/src`, entered via `main.py` / `streamlit_app.py`), which never imports
`process_trades.py` and never sets the context rounding mode itself. -/
def round2E (x : ℚ) : ℚ := (roundHalfEven (x * 100) : ℚ) / 100

/-- The as-of rate lookup realized by `pd.merge_asof(..., direction='backward')`
in `merge_and_calculate` / `merge_with_rates`, and by
`rates[rates['data'] <= trade_date].iloc[-1]` in
`recalculate_additional_trades`: the rate of the last entry (in table order;
the table is kept sorted ascending by date) whose date is ≤ the settlement
date, absent when no entry qualifies. -/
def lookupRate (rates : List (ℤ × ℚ)) (d : ℤ) : Option ℚ :=
  rates.foldl (fun acc e => if e.1 ≤ d then some e.2 else acc) none

/-- One row of the working trade table (`self.processed` /
`trades_in_rub_df`).  `rate`, `rubAmount`, `rubCommission`, `netResult`
mirror the columns `Курс`, `Сумма в руб`, `Комиссия брокера руб`,
`Итог в руб`; `none` models a `NaN`/`None` cell. -/
structure Row where
  ticker : String
  op : String
  quantity : ℚ
  amount : ℚ
  commission : ℚ
  settleDate : ℤ
  rate : Option ℚ
  rubAmount : Option ℚ
  rubCommission : Option ℚ
  netResult : Option ℚ
deriving DecidableEq, Repr

/-- Models `calc_sum` in `merge_and_calculate` (`process_trades.py`, which
runs under `ROUND_HALF_UP`): multiply the trading-currency amount by the
rate, negate when the operation contains `Покупка`, then quantize to 2
decimal places. -/
def calcSum (op : String) (amount rate : ℚ) : ℚ :=
  let a := amount * rate
  round2 (if containsSub op "Покупка" then -a else a)

/-- Models the same computation inside `calculate_rub_amounts`
(`trade_data_processor.py`), which runs under the default
`ROUND_HALF_EVEN`. -/
def calcSumE (op : String) (amount rate : ℚ) : ℚ :=
  let a := amount * rate
  round2E (if containsSub op "Покупка" then -a else a)

/-- Settlement of one row against the rate table by `merge_and_calculate`
(`process_trades.py`, `ROUND_HALF_UP` context): join the backward as-of rate,
then compute `Сумма в руб`, `Комиссия брокера руб` and `Итог в руб`, each
quantized to two decimal places.  A row whose settlement date precedes the
whole rate table gets an absent rate and absent money fields (in the source
these are `NaN`, which `Decimal` arithmetic propagates quietly). -/
def settleRow (rates : List (ℤ × ℚ)) (r : Row) : Row :=
  match lookupRate rates r.settleDate with
  | none =>
      { r with rate := none, rubAmount := none, rubCommission := none,
               netResult := none }
  | some k =>
      let ra := calcSum r.op r.amount k
      let rc := round2 (r.commission * k)
      { r with rate := some k, rubAmount := some ra, rubCommission := some rc,
               netResult := some (round2 (ra - rc)) }

/-- Settlement of one row by `merge_with_rates` + `calculate_rub_amounts`
(`trade_data_processor.py`): same join and arithmetic as `settleRow`, but its
quantizations run under Python's default `ROUND_HALF_EVEN` because nothing in
the modular package sets the decimal context. -/
def settleRowE (rates : List (ℤ × ℚ)) (r : Row) : Row :=
  match lookupRate rates r.settleDate with
  | none =>
      { r with rate := none, rubAmount := none, rubCommission := none,
               netResult := none }
  | some k =>
      let ra := calcSumE r.op r.amount k
      let rc := round2E (r.commission * k)
      { r with rate := some k, rubAmount := some ra, rubCommission := some rc,
               netResult := some (round2E (ra - rc)) }

/-- Models `recalculate_additional_trades`, restricted to one row: rows that already
carry a rate are untouched; a row with an absent rate is re-joined against the
rate table and its money fields recomputed; when still no rate entry has
date ≤ the settlement date the source logs a warning and leaves the row
unchanged (rate and money fields stay absent). -/
def recalcRow (rates : List (ℤ × ℚ)) (r : Row) : Row :=
  match r.rate with
  | some _ => r
  | none =>
      match lookupRate rates r.settleDate with
      | none => r
      | some k =>
          let ra := calcSum r.op r.amount k
          let rc := round2 (r.commission * k)
          { r with rate := some k, rubAmount := some ra,
                   rubCommission := some rc,
                   netResult := some (round2 (ra - rc)) }

/-- Models `recalculate_additional_trades` over the whole table: each row is
recalculated independently of the others, so one unmatched row never stops
the processing of the remaining rows. -/
def recalcAll (rates : List (ℤ × ℚ)) (rows : List Row) : List Row :=
  rows.map (recalcRow rates)

/-- The rows of the working table belonging to one ticker (the groups of
`groupby('Тикер')`). -/
def rowsOf (rows : List Row) (t : String) : List Row :=
  rows.filter (fun r => r.ticker == t)

/-- The distinct tickers of the working table (the group keys of
`groupby('Тикер')`). -/
def tickersOf (rows : List Row) : List String :=
  (rows.map (fun r => r.ticker)).dedup

/-- Signed quantity of `aggregate_summary` in `process_trades.py`:
`-Количество` when the operation contains `Покупка` (a substring test, so the
borrowed tag `Покупка (прошлый период)` also counts), `+Количество`
otherwise. -/
def signedQty (r : Row) : ℚ :=
  if containsSub r.op "Покупка" then -r.quantity else r.quantity

/-- Signed quantity of `calculate_summary` in `trade_summary_calculator.py`:
`+Количество` when the operation contains `Покупка`, `-Количество`
otherwise — the opposite sign convention. -/
def signedQtyMod (r : Row) : ℚ :=
  if containsSub r.op "Покупка" then r.quantity else -r.quantity

/-- The `Сальдо` column of `aggregate_summary` (`process_trades.py`) for one
ticker: the sum of the signed quantities of that ticker's rows. -/
def saldo (rows : List Row) (t : String) : ℚ :=
  ((rowsOf rows t).map signedQty).sum

/-- The `Остаток` column of `calculate_summary`
(`trade_summary_calculator.py`) for one ticker. -/
def ostatok (rows : List Row) (t : String) : ℚ :=
  ((rowsOf rows t).map signedQtyMod).sum

/-- The `Финансовый_результат_в_руб` column of `calculate_summary`: the sum of
the present `Итог в руб` values, quantized once more; `0.00` when every value
of the group is absent (the source's `dropna` / `notna` branch). -/
def realizedMod (rows : List Row) (t : String) : ℚ :=
  if ((rowsOf rows t).map (fun r => r.netResult)).any (fun o => o.isSome) then
    round2 (((rowsOf rows t).filterMap (fun r => r.netResult)).sum)
  else 0

/-- One row of the per-ticker summary table produced by
`calculate_summary`. -/
structure SummaryRow where
  ticker : String
  ostatokV : ℚ
  realized : ℚ
deriving DecidableEq, Repr

/-- Models `calculate_summary` (`trade_summary_calculator.py`): one summary row per
distinct ticker. -/
def summaryMod (rows : List Row) : List SummaryRow :=
  (tickersOf rows).map (fun t => ⟨t, ostatok rows t, realizedMod rows t⟩)

/-- Sum of a list of possibly-absent decimals with quiet-`NaN` propagation: a
single absent summand makes the whole sum absent, the empty sum is `0` (this
is how `Decimal('NaN')` cells behave under the source's summations). -/
def osum : List (Option ℚ) → Option ℚ
  | [] => some 0
  | x :: xs => x.bind (fun a => (osum xs).map (fun b => a + b))

/-- One row of the closed-positions table built by
`calculate_closed_positions` / `compute_closed_summary`. -/
structure ClosedRow where
  ticker : String
  sumP : Option ℚ
  sumS : Option ℚ
  sumC : Option ℚ
  result : Option ℚ
deriving DecidableEq, Repr

/-- The closed-position money columns for one ticker
(`calculate_closed_positions` in `trade_summary_calculator.py`, identical
arithmetic in `compute_closed_summary` of `process_trades.py`):
`Сумма покупок` sums the negated `Сумма в руб` of the rows whose operation is
exactly `Покупка`, `Сумма продаж` sums `Сумма в руб` of the rows whose
operation is exactly `Продажа`, `Сумма комиссий` sums
`Комиссия брокера руб` over every row of the ticker; each sum is quantized to
two decimal places after summation, and
`Итог = Сумма продаж - Сумма покупок - Сумма комиссий`, quantized again.
Every summand is an already-quantized two-decimal value, so each sum is exact
at two decimal places and these quantizations are identities — identical
under the `ROUND_HALF_UP` context of `process_trades.py` and the default
`ROUND_HALF_EVEN` of the modular package. -/
def mkClosedRow (rows : List Row) (t : String) : ClosedRow :=
  let grp := rowsOf rows t
  let sumP := (osum ((grp.filter (fun r => r.op == "Покупка")).map
    (fun r => r.rubAmount.map (fun x => -x)))).map round2
  let sumS := (osum ((grp.filter (fun r => r.op == "Продажа")).map
    (fun r => r.rubAmount))).map round2
  let sumC := (osum (grp.map (fun r => r.rubCommission))).map round2
  let result :=
    match sumP, sumS, sumC with
    | some p, some s, some c => some (round2 (s - p - c))
    | _, _, _ => none
  ⟨t, sumP, sumS, sumC, result⟩

/-- The closed-positions table (`calculate_closed_positions`): one row per
ticker whose balance is zero (the `Остаток == 0` selection; `Сальдо == 0`
selects the same tickers in `process_trades.py` since the two balances are
negatives of each other).  The synthetic `Итого` total row appended by the
source is presentation only and is not modelled. -/
def closedTable (rows : List Row) : List ClosedRow :=
  ((tickersOf rows).filter (fun t => ostatok rows t == 0)).map (mkClosedRow rows)

/-- A prior-period purchase lot as consumed by `process_negative_balance`
(`negative_balance_handler.py`): ticker, settlement date, quantity, trading
currency amount and commission (all from the prior-period report row). -/
structure PrevLot where
  ticker : String
  date : ℤ
  quantity : ℚ
  amount : ℚ
  commission : ℚ
deriving DecidableEq, Repr

/-- A synthesized borrowed trade (operation `Покупка (прошлый период)`). -/
structure Borrowed where
  date : ℤ
  quantity : ℚ
  amount : ℚ
  commission : ℚ
deriving DecidableEq, Repr

/-- Stable descending insertion by date (models
`sort_values('Расчеты', ascending=False)`). -/
def insertByDateDesc (x : PrevLot) : List PrevLot → List PrevLot
  | [] => [x]
  | y :: ys => if y.date < x.date then x :: y :: ys else y :: insertByDateDesc x ys

/-- Sort prior-period lots by date descending (most recent first). -/
def sortLotsDesc (lots : List PrevLot) : List PrevLot :=
  lots.foldr insertByDateDesc []

/-- The lot-consumption loop of `process_negative_balance`
(`negative_balance_handler.py`, the loop over `previous_buys`): while the
covered quantity is below the shortfall, take
`use = min(lot.Количество, needed - covered)` from the next lot and emit a
borrowed trade whose amount and commission are the lot's, scaled by
`use / lot.Количество` and quantized to two decimal places.  A lot of
quantity zero makes the `Decimal` division raise (`DivisionByZero` /
`InvalidOperation`), modelled as `Except.error`.  The quantization is written
with the half-up `round2`; the modular pipeline's ambient mode is
`ROUND_HALF_EVEN`, but the theorems about this function below concern only
the consumed quantities, the error behaviour, and tie-free concrete amounts,
all identical under either mode. -/
def coverLots : List PrevLot → ℚ → ℚ → Except Unit (List Borrowed)
  | [], _, _ => .ok []
  | lot :: rest, needed, covered =>
    if needed ≤ covered then .ok []
    else if lot.quantity = 0 then .error ()
    else
      let use := min lot.quantity (needed - covered)
      let b : Borrowed :=
        ⟨lot.date, use, round2 (lot.amount * use / lot.quantity),
         round2 (lot.commission * use / lot.quantity)⟩
      (coverLots rest needed (covered + use)).map (fun bs => b :: bs)

/-- A borrowed trade as a row of the working table: operation tag
`Покупка (прошлый период)`, rate and money columns left absent pending
re-settlement. -/
def borrowedToRow (t : String) (b : Borrowed) : Row :=
  ⟨t, "Покупка (прошлый период)", b.quantity, b.amount, b.commission, b.date,
   none, none, none, none⟩

/-- The per-ticker part of `process_negative_balance`: consume the
(date-descending) prior-period lots of each negative-balance ticker in turn;
a ticker with no prior-period lots is skipped (`continue`). -/
def coverAll (rows : List Row) (prevSorted : List PrevLot) :
    List String → Except Unit (List Row)
  | [] => .ok []
  | t :: ts => do
    let lots := prevSorted.filter (fun l => l.ticker == t)
    if lots.isEmpty then coverAll rows prevSorted ts
    else
      let bs ← coverLots lots |ostatok rows t| 0
      let rest ← coverAll rows prevSorted ts
      .ok (bs.map (borrowedToRow t) ++ rest)

/-- Models `process_negative_balance` (`negative_balance_handler.py`): if no ticker
of the summary has a negative balance the working table is returned
unchanged; otherwise the prior-period lots are sorted by date descending,
each negative ticker's shortfall `|Остаток|` is covered from its lots, and
the synthesized borrowed trades are appended to the table. -/
def processNegative (rows : List Row) (prev : List PrevLot) :
    Except Unit (List Row) :=
  let negs := (tickersOf rows).filter (fun t => decide (ostatok rows t < 0))
  if negs.isEmpty then .ok rows
  else (coverAll rows (sortLotsDesc prev) negs).map (fun extra => rows ++ extra)

/-- One run of the post-settlement tail of the pipeline: short-coverage
resolution followed by re-aggregation and closed-position computation. -/
def runPipe (rows : List Row) (prev : List PrevLot) :
    Except Unit (List Row × List SummaryRow × List ClosedRow) := do
  let rows2 ← processNegative rows prev
  .ok (rows2, summaryMod rows2, closedTable rows2)

/-- One row of the merged securities table consumed by
`find_insufficient_tickers` (`SecuritiesMerger.py`): the computed balance
(`Вычисленный_остаток`) and the declared end-of-period balance (`На конец`);
`none` models an empty/NaN cell. -/
structure MergedSec where
  ticker : String
  computed : Option ℚ
  declared : Option ℚ
deriving DecidableEq, Repr

/-- The sufficiency predicate of `find_insufficient_tickers`: condition 1 is
`Вычисленный_остаток == 0` with `На конец` empty, condition 2 is both present
and equal (a pandas comparison against `NaN` is false, hence the explicit
presence tests). -/
def isSufficient (c d : Option ℚ) : Bool :=
  (c == some 0 && d == none) || (c.isSome && d.isSome && c == d)

/-- Models `find_insufficient_tickers` (`SecuritiesMerger.py`): the rows failing the
sufficiency predicate. -/
def findInsufficientTickers (xs : List MergedSec) : List MergedSec :=
  xs.filter (fun x => !isSufficient x.computed x.declared)

deriving instance DecidableEq for Except

/-! ### Concrete fixtures (the spec's scenarios) -/

/-- Scenario A's rate table: 90.00 on 2024-01-01, 92.50 on 2024-01-10. -/
def scenarioARates : List (ℤ × ℚ) := [(20240101, 90), (20240110, 185 / 2)]

/-- Scenario A's trade: Buy 10, settlement 2024-01-05, amount 1000.00,
commission 5.00, not yet settled. -/
def scenarioATrade : Row :=
  ⟨"T", "Покупка", 10, 1000, 5, 20240105, none, none, none, none⟩

/-- Scenario B's working table for ticker `XYZ`: Buy 10 with
`Сумма в руб = -1000.00` and Sell 10 with `Сумма в руб = 1200.00`,
commissions 10.00 each (total 20.00). -/
def scenarioBRows : List Row :=
  [⟨"XYZ", "Покупка", 10, 0, 0, 0, some 1, some (-1000), some 10, some (-1010)⟩,
   ⟨"XYZ", "Продажа", 10, 0, 0, 0, some 1, some 1200, some 10, some 1190⟩]

/-- Scenario C's prior-period lots for `ABC`: Buy 10 at the older date and
Buy 8 at the more recent date (given unsorted, oldest first). -/
def scenarioCPrev : List PrevLot :=
  [⟨"ABC", 100, 10, 1000, 10⟩, ⟨"ABC", 200, 8, 800, 8⟩]

/-- Scenario C's current-period table: only Sell 15 on ticker `ABC`. -/
def scenarioCRows : List Row :=
  [⟨"ABC", "Продажа", 15, 1500, 15, 300, some 1, some 1500, some 15, some 1485⟩]

/-- A rate table whose single entry is later than the settlement date of
`scenarioATrade`, so the backward as-of join finds nothing. -/
def lateRates : List (ℤ × ℚ) := [(20240110, 90)]

/-- A single Sell trade of quantity 5, the sign-convention counterexample. -/
def cexSellRow : Row := ⟨"T", "Продажа", 5, 0, 0, 0, none, none, none, none⟩

/-- A one-entry rate table with rate 24.25, used for the rounding-mode
counterexample. -/
def tieRates : List (ℤ × ℚ) := [(0, 97 / 4)]

/-- A Sell of amount 0.50: settled at rate 24.25 the product is 12.125, an
exact half-cent tie on which `ROUND_HALF_UP` (12.13) and `ROUND_HALF_EVEN`
(12.12) disagree. -/
def tieTrade : Row := ⟨"T", "Продажа", 1, 1 / 2, 0, 0, none, none, none, none⟩

/-- The operation labels that can actually reach the aggregators: the
normalizer's two canonical outputs, the borrowed tag, or an unresolved label,
which never contains the canonical `Покупка` (case-sensitive) since any label
containing it would have been normalized to `Покупка`. -/
def OpWF (op : String) : Prop :=
  op = "Покупка" ∨ op = "Покупка (прошлый период)" ∨ op = "Продажа" ∨
    containsSub op "Покупка" = false

instance (op : String) : Decidable (OpWF op) := by
  unfold OpWF
  infer_instance

/-- The claim's signed-quantity formula, stated from the spec's words
(`+quantity` for Sell, `-quantity` for Buy — original or borrowed —
raw unsigned `+quantity` for Unresolved), for comparison with the two
aggregator implementations. -/
def specSignedQty (r : Row) : ℚ :=
  if r.op = "Покупка" ∨ r.op = "Покупка (прошлый период)" then -r.quantity
  else if r.op = "Продажа" then r.quantity
  else r.quantity

/-- The claim's `signedBalance` for a ticker, stated from the spec's words. -/
def specSignedBalance (rows : List Row) (t : String) : ℚ :=
  ((rowsOf rows t).map specSignedQty).sum

/-! ### Helper lemmas -/

theorem roundHalfUp_neg (x : ℚ) : roundHalfUp (-x) = -roundHalfUp x := by
  rcases lt_trichotomy x 0 with h | h | h
  · have h1 : ¬(0 : ℚ) ≤ x := not_le.mpr h
    have h2 : (0 : ℚ) ≤ -x := by linarith
    simp [roundHalfUp, h1, h2]
  · subst h
    decide
  · have h1 : (0 : ℚ) ≤ x := le_of_lt h
    have h2 : ¬(0 : ℚ) ≤ -x := by simpa using h
    simp [roundHalfUp, h1, h2]

theorem round2_neg (x : ℚ) : round2 (-x) = -round2 x := by
  unfold round2
  rw [show -x * 100 = -(x * 100) by ring, roundHalfUp_neg]
  push_cast
  ring

theorem rat_floor_eq_intFloor (q : ℚ) : q.floor = ⌊q⌋ := rfl

theorem roundHalfEven_neg (x : ℚ) : roundHalfEven (-x) = -roundHalfEven x := by
  unfold roundHalfEven
  rw [rat_floor_eq_intFloor, rat_floor_eq_intFloor]
  have h1 : (⌊x⌋ : ℚ) ≤ x := Int.floor_le x
  have h2 : x < ⌊x⌋ + 1 := Int.lt_floor_add_one x
  by_cases hint : x = (⌊x⌋ : ℚ)
  · have hfl : ⌊-x⌋ = -⌊x⌋ := by
      conv_lhs => rw [hint]
      rw [← Int.cast_neg, Int.floor_intCast]
    rw [hfl]
    have e0 : x - (⌊x⌋ : ℚ) = 0 := sub_eq_zero.mpr hint
    have e1 : -x - ((-⌊x⌋ : ℤ) : ℚ) = 0 := by
      push_cast
      linarith
    rw [e0, e1]
    norm_num
  · have hgt : (⌊x⌋ : ℚ) < x := lt_of_le_of_ne h1 (fun he => hint he.symm)
    have hfl : ⌊-x⌋ = -⌊x⌋ - 1 := by
      rw [Int.floor_eq_iff]
      constructor
      · push_cast
        linarith
      · push_cast
        linarith
    have efr : -x - ((-⌊x⌋ - 1 : ℤ) : ℚ) = 1 - (x - (⌊x⌋ : ℚ)) := by
      push_cast
      ring
    rw [hfl, efr]
    rcases lt_trichotomy (x - (⌊x⌋ : ℚ)) (1 / 2) with hf | hf | hf <;>
      split_ifs <;> first | rfl | omega | linarith

theorem round2E_neg (x : ℚ) : round2E (-x) = -round2E x := by
  unfold round2E
  rw [show -x * 100 = -(x * 100) by ring, roundHalfEven_neg]
  push_cast
  ring

theorem osum_all_some (f : Row → Option ℚ) (l : List Row)
    (h : ∀ r ∈ l, (f r).isSome) :
    osum (l.map f) = some ((l.map (fun r => (f r).getD 0)).sum) := by
  induction l with
  | nil => rfl
  | cons a t ih =>
      obtain ⟨v, hv⟩ := Option.isSome_iff_exists.mp (h a (List.mem_cons_self a t))
      have ht := ih (fun r hr => h r (List.mem_cons_of_mem a hr))
      simp [osum, ht, hv]

theorem sum_map_negf (f : Row → ℚ) (l : List Row) :
    (l.map (fun r => -f r)).sum = -((l.map f).sum) := by
  induction l with
  | nil => simp
  | cons a t ih => simp [ih]; ring

theorem coverLots_ok_of_pos (lots : List PrevLot) :
    ∀ needed covered : ℚ, (∀ l ∈ lots, 0 < l.quantity) →
      ∃ bs, coverLots lots needed covered = Except.ok bs := by
  induction lots with
  | nil => exact fun _ _ _ => ⟨[], rfl⟩
  | cons lot rest ih =>
      intro needed covered hpos
      by_cases hnc : needed ≤ covered
      · exact ⟨[], by simp [coverLots, hnc]⟩
      · have hq : lot.quantity ≠ 0 :=
          ne_of_gt (hpos lot (List.mem_cons_self lot rest))
        obtain ⟨bs, hbs⟩ := ih needed
          (covered + min lot.quantity (needed - covered))
          (fun l hl => hpos l (List.mem_cons_of_mem lot hl))
        refine ⟨⟨lot.date, min lot.quantity (needed - covered),
          round2 (lot.amount * min lot.quantity (needed - covered) / lot.quantity),
          round2 (lot.commission * min lot.quantity (needed - covered) /
            lot.quantity)⟩ :: bs, ?_⟩
        simp [coverLots, hnc, hq, hbs, Except.map]

theorem coverLots_consumed (lots : List PrevLot) :
    ∀ needed covered : ℚ, (∀ l ∈ lots, 0 < l.quantity) → covered ≤ needed →
      ∃ bs, coverLots lots needed covered = Except.ok bs ∧
        0 ≤ (bs.map (fun b => b.quantity)).sum ∧
        covered + (bs.map (fun b => b.quantity)).sum ≤ needed ∧
        (covered + (bs.map (fun b => b.quantity)).sum < needed →
          (bs.map (fun b => b.quantity)).sum =
            (lots.map (fun l => l.quantity)).sum) := by
  induction lots with
  | nil =>
      intro needed covered _ hc
      exact ⟨[], rfl, le_refl 0, by simpa using hc, fun _ => by simp⟩
  | cons lot rest ih =>
      intro needed covered hpos hc
      by_cases hnc : needed ≤ covered
      · refine ⟨[], by simp [coverLots, hnc], le_refl 0, by simpa using hc, ?_⟩
        intro hlt
        exact absurd hnc (not_le.mpr (by simpa using hlt))
      · have hq : (0 : ℚ) < lot.quantity := hpos lot (List.mem_cons_self lot rest)
        have hcn : covered < needed := not_le.mp hnc
        have huse : (0 : ℚ) < min lot.quantity (needed - covered) :=
          lt_min hq (by linarith)
        have hc2 : covered + min lot.quantity (needed - covered) ≤ needed := by
          have := min_le_right lot.quantity (needed - covered)
          linarith
        obtain ⟨bs, hok, hnn, hle, hres⟩ := ih needed
          (covered + min lot.quantity (needed - covered))
          (fun l hl => hpos l (List.mem_cons_of_mem lot hl)) hc2
        refine ⟨⟨lot.date, min lot.quantity (needed - covered),
          round2 (lot.amount * min lot.quantity (needed - covered) / lot.quantity),
          round2 (lot.commission * min lot.quantity (needed - covered) /
            lot.quantity)⟩ :: bs,
          by simp [coverLots, hnc, ne_of_gt hq, hok, Except.map], ?_, ?_, ?_⟩
        · simp only [List.map_cons, List.sum_cons]
          linarith
        · simp only [List.map_cons, List.sum_cons]
          linarith
        · intro hlt
          simp only [List.map_cons, List.sum_cons] at hlt ⊢
          have hres2 := hres (by linarith)
          rcases min_cases lot.quantity (needed - covered) with ⟨he, _⟩ | ⟨he, _⟩
          · rw [hres2, he]
          · exfalso
            rw [he] at hlt
            linarith


theorem signedQty_eq_spec (r : Row) (h : OpWF r.op) :
    signedQty r = specSignedQty r := by
  rcases h with h | h | h | h
  · simp [signedQty, specSignedQty, h,
      show containsSub "Покупка" "Покупка" = true from by decide]
  · simp [signedQty, specSignedQty, h,
      show containsSub "Покупка (прошлый период)" "Покупка" = true from by decide]
  · simp [signedQty, specSignedQty, h,
      show containsSub "Продажа" "Покупка" = false from by decide]
  · have h1 : r.op ≠ "Покупка" := by
      intro he
      rw [he] at h
      exact absurd h (by decide)
    have h2 : r.op ≠ "Покупка (прошлый период)" := by
      intro he
      rw [he] at h
      exact absurd h (by decide)
    simp [signedQty, specSignedQty, h, h1, h2]

theorem signedQtyMod_eq_neg_spec (r : Row) (h : OpWF r.op) :
    signedQtyMod r = -specSignedQty r := by
  have hq : signedQtyMod r = -signedQty r := by
    unfold signedQty signedQtyMod
    by_cases hb : containsSub r.op "Покупка" <;> simp [hb]
  rw [hq, signedQty_eq_spec r h]

/-! ### Claim theorems -/

theorem calcSum_eq_signed_round2 (op : String) (a k : ℚ) :
    calcSum op a k =
      if containsSub op "Покупка" then -round2 (a * k) else round2 (a * k) := by
  unfold calcSum
  by_cases hb : containsSub op "Покупка"
  · simp [hb, round2_neg]
  · simp [hb]

theorem calcSumE_eq_signed_round2E (op : String) (a k : ℚ) :
    calcSumE op a k =
      if containsSub op "Покупка" then -round2E (a * k) else round2E (a * k) := by
  unfold calcSumE
  by_cases hb : containsSub op "Покупка"
  · simp [hb, round2E_neg]
  · simp [hb]

/-- C1 counterexample: the claim's round-half-up assertion fails on
`calculate_rub_amounts` (`trade_data_processor.py`), which quantizes under
Python's default `ROUND_HALF_EVEN`: selling amount 0.50 at rate 24.25 gives
the exact half-cent 12.125, which the modular settlement rounds to 12.12
while round-half-up — and `merge_and_calculate` in `process_trades.py` —
gives 12.13. -/
theorem claim_C1_counterexample :
    lookupRate tieRates tieTrade.settleDate = some (97 / 4) ∧
    (settleRowE tieRates tieTrade).rubAmount = some (303 / 25) ∧
    round2 (tieTrade.amount * (97 / 4)) = 1213 / 100 ∧
    (settleRowE tieRates tieTrade).rubAmount ≠
      some (round2 (tieTrade.amount * (97 / 4))) ∧
    (settleRow tieRates tieTrade).rubAmount = some (1213 / 100) := by
  exact ⟨by decide, by decide, by decide, by decide, by decide⟩

/-- C1 (amended): for every trade joined to a rate, `Сумма в руб` is the
quantized product of amount and rate, negated exactly for a purchase; the
commission is quantized independently; `Итог в руб` re-quantizes their
difference — with quantization round-half-up in `merge_and_calculate`
(`process_trades.py`, which installs `ROUND_HALF_UP`) but round-half-even in
`calculate_rub_amounts` (the modular package never sets the decimal context,
so Python's default applies), the two differing exactly at half-cent ties.
On Scenario A's tie-free input both settlements give −90000.00, 450.00 and
−90450.00. -/
theorem claim_C1 (rates : List (ℤ × ℚ)) (r : Row) (k : ℚ)
    (h : lookupRate rates r.settleDate = some k) :
    (settleRow rates r).rubAmount =
      some (if containsSub r.op "Покупка" then -round2 (r.amount * k)
            else round2 (r.amount * k)) ∧
    (settleRow rates r).rubCommission = some (round2 (r.commission * k)) ∧
    (settleRow rates r).netResult =
      some (round2 ((if containsSub r.op "Покупка" then -round2 (r.amount * k)
                     else round2 (r.amount * k)) - round2 (r.commission * k))) ∧
    (settleRowE rates r).rubAmount =
      some (if containsSub r.op "Покупка" then -round2E (r.amount * k)
            else round2E (r.amount * k)) ∧
    (settleRowE rates r).rubCommission = some (round2E (r.commission * k)) ∧
    (settleRowE rates r).netResult =
      some (round2E ((if containsSub r.op "Покупка" then -round2E (r.amount * k)
                      else round2E (r.amount * k)) - round2E (r.commission * k))) ∧
    (settleRow scenarioARates scenarioATrade).rubAmount = some (-90000) ∧
    (settleRow scenarioARates scenarioATrade).rubCommission = some 450 ∧
    (settleRow scenarioARates scenarioATrade).netResult = some (-90450) ∧
    (settleRowE scenarioARates scenarioATrade).rubAmount = some (-90000) ∧
    (settleRowE scenarioARates scenarioATrade).rubCommission = some 450 ∧
    (settleRowE scenarioARates scenarioATrade).netResult = some (-90450) := by
  refine ⟨?_, ?_, ?_, ?_, ?_, ?_, by decide, by decide, by decide,
    by decide, by decide, by decide⟩
  · simp [settleRow, h, calcSum_eq_signed_round2]
  · simp [settleRow, h]
  · simp [settleRow, h, calcSum_eq_signed_round2]
  · simp [settleRowE, h, calcSumE_eq_signed_round2E]
  · simp [settleRowE, h]
  · simp [settleRowE, h, calcSumE_eq_signed_round2E]

/-- Witness for C1 at Scenario A's concrete input, exercising both rounding
contexts. -/
theorem claim_C1_witness :
    (settleRow scenarioARates scenarioATrade).rubCommission =
      some (round2 (scenarioATrade.commission * 90)) ∧
    (settleRowE scenarioARates scenarioATrade).rubCommission =
      some (round2E (scenarioATrade.commission * 90)) :=
  ⟨(claim_C1 scenarioARates scenarioATrade 90 (by decide)).2.1,
   (claim_C1 scenarioARates scenarioATrade 90 (by decide)).2.2.2.2.1⟩

/-- C2 counterexample: a single Sell of quantity 5 under
`calculate_summary` (`trade_summary_calculator.py`) yields `Остаток = -5`,
while the claim's formula gives `+5`. -/
theorem claim_C2_counterexample :
    ostatok [cexSellRow] "T" = -5 ∧ specSignedBalance [cexSellRow] "T" = 5 ∧
    ostatok [cexSellRow] "T" ≠ specSignedBalance [cexSellRow] "T" := by
  refine ⟨by decide, by decide, by decide⟩

/-- C2 (amended): over normalized operation labels, `aggregate_summary`
(`process_trades.py`) computes the claim's signed balance — `+quantity` for
Sell, `-quantity` for Buy (original or borrowed), raw `+quantity` for
Unresolved — while `calculate_summary` (`trade_summary_calculator.py`) uses
the opposite sign convention and computes exactly its negation. -/
theorem claim_C2 (rows : List Row) (t : String) (h : ∀ r ∈ rows, OpWF r.op) :
    saldo rows t = specSignedBalance rows t ∧
    ostatok rows t = -specSignedBalance rows t := by
  have hmap : (rowsOf rows t).map signedQty = (rowsOf rows t).map specSignedQty :=
    List.map_congr_left
      (fun r hr => signedQty_eq_spec r (h r (List.mem_of_mem_filter hr)))
  have hmap2 : (rowsOf rows t).map signedQtyMod =
      (rowsOf rows t).map (fun r => -specSignedQty r) :=
    List.map_congr_left
      (fun r hr => signedQtyMod_eq_neg_spec r (h r (List.mem_of_mem_filter hr)))
  constructor
  · unfold saldo specSignedBalance
    rw [hmap]
  · unfold ostatok specSignedBalance
    rw [hmap2, sum_map_negf]

/-- Witness for C2 on a mixed Buy/Sell/borrowed/unresolved table. -/
theorem claim_C2_witness :
    saldo [cexSellRow] "T" = specSignedBalance [cexSellRow] "T" :=
  (claim_C2 [cexSellRow] "T" (by decide)).1

/-- C3: Scenario C — with only Sell 15 on `ABC` (`Остаток = -15`) and
prior-period Buy lots of 8 (recent) and 10 (older), the resolver consumes the
8-lot fully and 7 of the 10-lot with amount and commission scaled by `7/10`,
total consumed 15, and after synthesis the re-aggregated balance is 0. -/
theorem claim_C3 :
    ostatok scenarioCRows "ABC" = -15 ∧
    processNegative scenarioCRows scenarioCPrev =
      Except.ok (scenarioCRows ++
        [borrowedToRow "ABC" ⟨200, 8, 800, 8⟩,
         borrowedToRow "ABC" ⟨100, 7, 700, 7⟩]) ∧
    (700 : ℚ) = 1000 * (7 / 10) ∧ (7 : ℚ) = 10 * (7 / 10) ∧
    (8 : ℚ) + 7 = 15 ∧
    (processNegative scenarioCRows scenarioCPrev).map
      (fun rs => ostatok rs "ABC") = Except.ok 0 := by
  exact ⟨by decide, by decide, by norm_num, by norm_num, by norm_num, by decide⟩

/-- C4: for a ticker with negative balance `b` and positive-quantity lots,
the borrowed trades consume at most the shortfall `|b|`; and when they
consume strictly less, every lot was exhausted, so the uncovered residual is
exactly the shortfall minus the total consumed quantity. -/
theorem claim_C4 (lots : List PrevLot) (b : ℚ) (_hb : b < 0)
    (hpos : ∀ l ∈ lots, 0 < l.quantity) :
    ∃ bs, coverLots lots |b| 0 = Except.ok bs ∧
      (bs.map (fun x => x.quantity)).sum ≤ |b| ∧
      ((bs.map (fun x => x.quantity)).sum < |b| →
        |b| - (bs.map (fun x => x.quantity)).sum =
          |b| - (lots.map (fun l => l.quantity)).sum) := by
  obtain ⟨bs, hok, hnn, hle, hres⟩ :=
    coverLots_consumed lots |b| 0 hpos (abs_nonneg b)
  refine ⟨bs, hok, by simpa using hle, ?_⟩
  intro hlt
  rw [hres (by simpa using hlt)]

/-- Witness for C4: shortfall 5 against a single lot of quantity 2. -/
theorem claim_C4_witness :
    ∃ bs, coverLots [⟨"T", 1, 2, 20, 1⟩] |(-5 : ℚ)| 0 = Except.ok bs ∧
      (bs.map (fun x => x.quantity)).sum ≤ |(-5 : ℚ)| ∧
      ((bs.map (fun x => x.quantity)).sum < |(-5 : ℚ)| →
        |(-5 : ℚ)| - (bs.map (fun x => x.quantity)).sum =
          |(-5 : ℚ)| - ([(⟨"T", 1, 2, 20, 1⟩ : PrevLot)].map
            (fun l => l.quantity)).sum) :=
  claim_C4 [⟨"T", 1, 2, 20, 1⟩] (-5) (by norm_num) (by decide)

theorem getD_map_neg (o : Option ℚ) :
    (o.map (fun x => -x)).getD 0 = -(o.getD 0) := by
  cases o <;> simp

/-- C5: for every ticker whose balance is zero, the closed-position row sums
the negated purchase `Сумма в руб` (a positive magnitude), the sale
`Сумма в руб`, and the commissions of every row of the ticker, each quantized
after summation, with `Итог` the quantized difference; Scenario B instantiates
this with totals 1000.00 / 1200.00 / 20.00 / 180.00. -/
theorem claim_C5 (rows : List Row) (t : String)
    (ht : t ∈ tickersOf rows) (h0 : ostatok rows t = 0)
    (hdef : ∀ r ∈ rowsOf rows t, r.rubAmount.isSome ∧ r.rubCommission.isSome) :
    mkClosedRow rows t ∈ closedTable rows ∧
    mkClosedRow rows t = ⟨t,
      some (round2 ((((rowsOf rows t).filter (fun r => r.op == "Покупка")).map
        (fun r => -(r.rubAmount.getD 0))).sum)),
      some (round2 ((((rowsOf rows t).filter (fun r => r.op == "Продажа")).map
        (fun r => r.rubAmount.getD 0)).sum)),
      some (round2 (((rowsOf rows t).map (fun r => r.rubCommission.getD 0)).sum)),
      some (round2 (
        round2 ((((rowsOf rows t).filter (fun r => r.op == "Продажа")).map
          (fun r => r.rubAmount.getD 0)).sum) -
        round2 ((((rowsOf rows t).filter (fun r => r.op == "Покупка")).map
          (fun r => -(r.rubAmount.getD 0))).sum) -
        round2 (((rowsOf rows t).map (fun r => r.rubCommission.getD 0)).sum)))⟩ ∧
    closedTable scenarioBRows =
      [⟨"XYZ", some 1000, some 1200, some 20, some 180⟩] := by
  refine ⟨?_, ?_, by decide⟩
  · exact List.mem_map_of_mem (mkClosedRow rows)
      (List.mem_filter.mpr ⟨ht, by simp [h0]⟩)
  · have hP : osum (((rowsOf rows t).filter (fun r => r.op == "Покупка")).map
        (fun r => r.rubAmount.map (fun x => -x))) =
        some ((((rowsOf rows t).filter (fun r => r.op == "Покупка")).map
          (fun r => -(r.rubAmount.getD 0))).sum) := by
      rw [osum_all_some _ _ (fun r hr => by
        obtain ⟨v, hv⟩ := Option.isSome_iff_exists.mp
          (hdef r (List.mem_of_mem_filter hr)).1
        simp [hv])]
      rw [List.map_congr_left (fun (r : Row) _ => getD_map_neg r.rubAmount)]
    have hS : osum (((rowsOf rows t).filter (fun r => r.op == "Продажа")).map
        (fun r => r.rubAmount)) =
        some ((((rowsOf rows t).filter (fun r => r.op == "Продажа")).map
          (fun r => r.rubAmount.getD 0)).sum) :=
      osum_all_some _ _ (fun r hr => (hdef r (List.mem_of_mem_filter hr)).1)
    have hC : osum ((rowsOf rows t).map (fun r => r.rubCommission)) =
        some (((rowsOf rows t).map (fun r => r.rubCommission.getD 0)).sum) :=
      osum_all_some _ _ (fun r hr => (hdef r hr).2)
    simp only [mkClosedRow, hP, hS, hC, Option.map_some']

/-- Witness for C5 at Scenario B's concrete table. -/
theorem claim_C5_witness :
    closedTable scenarioBRows =
      [⟨"XYZ", some 1000, some 1200, some 20, some 180⟩] :=
  (claim_C5 scenarioBRows "XYZ" (by decide) (by decide) (by decide)).2.2

theorem isSufficient_none (d : Option ℚ) : isSufficient none d = false := rfl

theorem isSufficient_some_none (a : ℚ) :
    isSufficient (some a) none = (a == 0) := by
  unfold isSufficient
  cases h0 : (a == (0 : ℚ)) <;>
    rw [show ((some a : Option ℚ) == some 0) = (a == 0) from rfl, h0] <;> rfl

theorem isSufficient_some_some (a b : ℚ) :
    isSufficient (some a) (some b) = (a == b) := by
  unfold isSufficient
  cases h0 : (a == (0 : ℚ)) <;> cases h1 : (a == b) <;>
    rw [show ((some a : Option ℚ) == some 0) = (a == 0) from rfl,
      show ((some a : Option ℚ) == some b) = (a == b) from rfl, h0, h1] <;> rfl

/-- C6: the reconciliation checker's sufficiency predicate holds exactly when
the computed balance is 0 with the declared balance absent, or both balances
are present and equal; every other row lands in the insufficient-data result;
Scenario D instantiates both branches. -/
theorem claim_C6 :
    (∀ c d : Option ℚ, isSufficient c d = true ↔
      ((c = some 0 ∧ d = none) ∨ ∃ x, c = some x ∧ d = some x)) ∧
    (∀ (xs : List MergedSec) (x : MergedSec),
      x ∈ findInsufficientTickers xs ↔
        x ∈ xs ∧ isSufficient x.computed x.declared = false) ∧
    isSufficient (some 0) none = true ∧
    isSufficient (some 0) (some 5) = false := by
  refine ⟨?_, ?_, by decide, by decide⟩
  · intro c d
    cases c with
    | none =>
        rw [isSufficient_none]
        constructor
        · intro hb
          cases hb
        · rintro (⟨h1, _⟩ | ⟨x, h1, _⟩) <;> cases h1
    | some a =>
        cases d with
        | none =>
            rw [isSufficient_some_none]
            constructor
            · intro hb
              exact Or.inl ⟨by rw [beq_iff_eq.mp hb], rfl⟩
            · rintro (⟨h1, _⟩ | ⟨x, _, hx⟩)
              · injection h1 with h1e
                exact beq_iff_eq.mpr h1e
              · cases hx
        | some b =>
            rw [isSufficient_some_some]
            constructor
            · intro hb
              exact Or.inr ⟨a, rfl, by rw [beq_iff_eq.mp hb]⟩
            · rintro (⟨_, hx⟩ | ⟨x, hx1, hx2⟩)
              · cases hx
              · injection hx1 with he1
                injection hx2 with he2
                exact beq_iff_eq.mpr (he1.trans he2.symm)
  · intro xs x
    simp [findInsufficientTickers, List.mem_filter]

/-- Witness for C6: Scenario D's sufficient branch via the equivalence. -/
theorem claim_C6_witness :
    isSufficient (some 0) none = true ↔
      (((some 0 : Option ℚ) = some 0 ∧ (none : Option ℚ) = none) ∨
        ∃ x, (some 0 : Option ℚ) = some x ∧ (none : Option ℚ) = some x) :=
  claim_C6.1 (some 0) none

/-- C7 counterexample: a trade whose settlement date precedes the whole rate
table keeps an absent rate and absent money fields through the fallback
recalculation — the fallback does not substitute rate 0 (the claim's
"treats as rate = 0" would give `Курс = 0` and `Сумма в руб = 0.00`). -/
theorem claim_C7_counterexample :
    (settleRow lateRates scenarioATrade).rate = none ∧
    recalcRow lateRates (settleRow lateRates scenarioATrade) =
      settleRow lateRates scenarioATrade ∧
    (recalcRow lateRates (settleRow lateRates scenarioATrade)).rate ≠ some 0 ∧
    (recalcRow lateRates (settleRow lateRates scenarioATrade)).rubAmount ≠
      some 0 := by
  exact ⟨by decide, by decide, by decide, by decide⟩

/-- C7 (amended): when no rate entry has date ≤ the trade's settlement date,
settlement does not abort: the row gets an absent rate and absent
domestic-currency fields, the fallback recalculation (which logs a warning in
the source) leaves the row unchanged rather than substituting rate = 0, and
every other row of the table is still recalculated independently. -/
theorem claim_C7 (rates : List (ℤ × ℚ)) (r : Row)
    (h : lookupRate rates r.settleDate = none) :
    (settleRow rates r).rate = none ∧
    (settleRow rates r).rubAmount = none ∧
    (settleRow rates r).rubCommission = none ∧
    (settleRow rates r).netResult = none ∧
    recalcRow rates (settleRow rates r) = settleRow rates r ∧
    ∀ rows : List Row, recalcAll rates rows = rows.map (recalcRow rates) := by
  have hs : settleRow rates r =
      { r with rate := none, rubAmount := none, rubCommission := none,
               netResult := none } := by
    simp [settleRow, h]
  refine ⟨by rw [hs], by rw [hs], by rw [hs], by rw [hs], ?_, fun _ => rfl⟩
  rw [hs]
  simp [recalcRow, h]

/-- Witness for C7 at the concrete late rate table. -/
theorem claim_C7_witness :
    (settleRow lateRates scenarioATrade).rubAmount = none :=
  (claim_C7 lateRates scenarioATrade (by decide)).2.1

/-- C8: on a trade set with no negative balance the short-coverage step
returns the table unchanged, and re-running the resolution + aggregation +
closed-position tail yields identical outputs (idempotence). -/
theorem claim_C8 (rows : List Row) (prev : List PrevLot)
    (h : ∀ t ∈ tickersOf rows, 0 ≤ ostatok rows t) :
    runPipe rows prev =
      Except.ok (rows, summaryMod rows, closedTable rows) ∧
    (runPipe rows prev).bind (fun x => runPipe x.1 prev) =
      runPipe rows prev := by
  have hneg : (tickersOf rows).filter (fun t => decide (ostatok rows t < 0)) = [] := by
    rw [List.filter_eq_nil_iff]
    intro t htm
    simpa using not_lt.mpr (h t htm)
  have hp : processNegative rows prev = Except.ok rows := by
    simp [processNegative, hneg]
  have h1 : runPipe rows prev =
      Except.ok (rows, summaryMod rows, closedTable rows) := by
    unfold runPipe
    rw [hp]
    rfl
  refine ⟨h1, ?_⟩
  rw [h1]
  simpa [Except.bind] using h1

/-- Witness for C8 at Scenario B's balanced table. -/
theorem claim_C8_witness :
    runPipe scenarioBRows [] =
      Except.ok (scenarioBRows, summaryMod scenarioBRows,
        closedTable scenarioBRows) :=
  (claim_C8 scenarioBRows [] (by decide)).1

/-- C9: a raw label containing (case-insensitively) both a buy-lexicon token
and a sell-lexicon token is classified `Покупка` — the buy test runs first
and short-circuits the sell test. -/
theorem claim_C9 (raw : String)
    (hbuy : (containsSub (strLower (strStrip raw)) "покуп" ||
             containsSub (strLower (strStrip raw)) "купл" ||
             containsSub (strLower (strStrip raw)) "buy") = true)
    (_hsell : (containsSub (strLower (strStrip raw)) "продаж" ||
              containsSub (strLower (strStrip raw)) "sell") = true) :
    normalizeOperation raw = "Покупка" := by
  simp only [normalizeOperation]
  rw [if_pos hbuy]

/-- Witness for C9: a label carrying both lexicons. -/
theorem claim_C9_witness : normalizeOperation "buy and sell" = "Покупка" :=
  claim_C9 "buy and sell" (by decide) (by decide)

/-- C10: with every considered lot of positive quantity the lot-scaling
division is well-defined and the resolver never hits its division-by-zero
error branch, while a zero-quantity lot would abort it. -/
theorem claim_C10 (lots : List PrevLot) (needed covered : ℚ)
    (hpos : ∀ l ∈ lots, 0 < l.quantity) :
    (∃ bs, coverLots lots needed covered = Except.ok bs) ∧
    coverLots [⟨"Z", 0, 0, 100, 1⟩] 5 0 = Except.error () := by
  exact ⟨coverLots_ok_of_pos lots needed covered hpos, by decide⟩

/-- Witness for C10 on a concrete positive-quantity lot pool. -/
theorem claim_C10_witness :
    ∃ bs, coverLots [⟨"T", 1, 3, 30, 1⟩] 5 0 = Except.ok bs :=
  (claim_C10 [⟨"T", 1, 3, 30, 1⟩] 5 0 (by decide)).1
